import Mathlib

/-!
Shallow embedding of the `simple-cli-agent` repository (TypeScript sources
`src/agent.ts` and `src/tools.ts`) and proofs about the claims of its
natural-language specification.

The agent loop (`Agent.run` in `src/agent.ts`) is embedded as a pure
function over an explicit environment (registry, hooks, model oracle), an
explicit conversation state (`List Content`) and an explicit event trace
recording the observable effects (logging-hook firings, tool executions,
confirmation answers, model calls).  The filesystem tools of
`src/tools.ts` are embedded over an explicit filesystem model.
-/

namespace Agent

/-- A JSON-ish value carried in tool-argument mappings and tool results. -/
inductive Value
  | vStr (s : String)
  | vInt (n : Int)
  | vBool (b : Bool)
deriving DecidableEq, Repr

/-- A named argument mapping (a JS object, keys in insertion order). -/
abbrev Args := List (String × Value)

/-- How a JS value prints inside a template literal, for the strings built
by `Agent.formatError` (`args.file_path` interpolated into the message). -/
def Value.render : Value → String
  | .vStr s => s
  | .vInt n => toString n
  | .vBool b => if b then "true" else "false"

/-- The `result` object pushed for one invocation: either
`{ result: value }` or `{ error: message }` (agent.ts lines 108-147). -/
inductive ToolResult
  | ok (v : Value)
  | err (msg : String)
deriving DecidableEq, Repr

/-- One function call requested by the model (`response.functionCalls[i]`):
`name` and `args` are both optional in the SDK type. -/
structure FunctionCall where
  name : Option String
  args : Option Args
deriving DecidableEq, Repr

/-- One Part of a Content (the SDK `Part` union, the three variants this
program produces or consumes). -/
inductive Part
  | text (s : String)
  | functionCall (name : Option String) (args : Option Args)
  | functionResponse (name : String) (response : ToolResult)
deriving DecidableEq, Repr

/-- One Turn of conversation state (the SDK `Content`). -/
structure Content where
  role : String
  parts : List Part
deriving DecidableEq, Repr

/-- The model reply as the loop reads it: `response.candidates?[0]?.content`
(the raw content appended to history) and the `response.functionCalls`
accessor. -/
structure GenerateContentResponse where
  candidateContent : Option Content
  functionCalls : Option (List FunctionCall)
deriving DecidableEq, Repr

/-- A tool declaration (`ToolDefinition` in agent.ts).  `paramOrder` is the
declaration order of the keys of the schema's `properties` object, which
is what "positional in schema declaration order" refers to. -/
structure ToolDefinition where
  name : String
  description : String
  paramOrder : List String

/-- One registry entry (`ToolsMap` value in agent.ts): a declaration, an
executable taking positional arguments (a throw is `Except.error`), and the
optional confirmation flag (absent = `false`). -/
structure ToolEntry where
  definition : ToolDefinition
  fn : List Value → Except String Value
  requiresConfirmation : Bool := false

/-- Observable effects of a run, recorded in emission order. -/
inductive Event
  | modelCalled
  | logged (name : String) (args : Args)
  | confirmed (name : String) (answer : Bool)
  | executed (name : String) (posArgs : List Value)
  | limitHook (iteration : Nat) (answer : Bool)
deriving DecidableEq, Repr

/-- The agent configuration plus its external collaborators (`AgentConfig`
in agent.ts, with the hooks and the model client made explicit): `tools`
is the registry as an ordered name-keyed object, `onToolCall` records
whether the logging hook is configured (its firings land in the event
trace), `modelFn` is the model-client oracle answering one
`generateContent` call from the contents it is sent.
`onMaxIterationsReached` is the on-limit hook of the spec (see
`checkLimit`). -/
structure Env where
  tools : Option (List (String × ToolEntry))
  confirmAction : Option (String → Args → Bool)
  onToolCall : Bool
  onMaxIterationsReached : Option (Nat → Bool)
  maxIterations : Nat
  modelFn : List Content → GenerateContentResponse

/-- The `input` parameter of `run`: a user prompt string or function
response parts. -/
inductive Input
  | str (s : String)
  | parts (ps : List Part)
deriving DecidableEq, Repr

/-- The Turn `run` appends for its input (agent.ts lines 73-77): a string
is wrapped as a single text Part; parts are appended under role "user". -/
def inputContent : Input → Content
  | .str s => ⟨"user", [Part.text s]⟩
  | .parts ps => ⟨"user", ps⟩

/-- The conditions that abort a `run` call (thrown errors), plus fuel
exhaustion of the embedding. -/
inductive RunError
  | maxIterationsExceeded (max : Nat)
  | stoppedByUser (iteration : Nat)
  | outOfFuel
deriving DecidableEq, Repr

/-- The message of each thrown error (agent.ts line 69; the stopped-by-user
wording is fixed by the repository's tests). -/
def RunError.message : RunError → String
  | .maxIterationsExceeded m =>
      "Agent exceeded maximum iterations (" ++ toString m ++
        "). Stopping to prevent infinite loop."
  | .stoppedByUser i =>
      "Agent stopped after " ++ toString i ++ " iterations by user."
  | .outOfFuel => "out of fuel"

/-- `s.includes pat` of JS: `pat` occurs contiguously in `s`. -/
def containsSub (s pat : String) : Bool :=
  decide (List.IsInfix pat.data s.data)

/-- JS `args.file_path ?? args.directory_path ?? "unknown"` (agent.ts
line 165). -/
def argPath (args : Args) : String :=
  match (args.find? (fun p => p.1 == "file_path")).map Prod.snd with
  | some v => v.render
  | none =>
    match (args.find? (fun p => p.1 == "directory_path")).map Prod.snd with
    | some v => v.render
    | none => "unknown"

/-- `Agent.formatError` (agent.ts lines 160-176). -/
def formatError (message toolName : String) (args : Args) : String :=
  if containsSub message "ENOENT" || containsSub message "no such file" then
    "Error: File or directory not found at '" ++ argPath args ++
      "'. Please verify the path exists."
  else if containsSub message "EACCES" || containsSub message "permission denied" then
    "Error: Permission denied. Cannot access the specified path."
  else if containsSub message "EISDIR" then
    "Error: Expected a file but found a directory."
  else
    "Error in " ++ toolName ++ ": " ++ message

/-- `toolName in this.tools` / `this.tools[toolName]` on the registry
object. -/
def lookupTool (ts : List (String × ToolEntry)) (name : String) : Option ToolEntry :=
  (ts.find? (fun p => p.1 == name)).map Prod.snd

/-- `Object.keys(this.tools ?? \x7b\x7d).join(", ")` (agent.ts line 142). -/
def availableToolNames (env : Env) : String :=
  String.intercalate ", " ((env.tools.getD []).map Prod.fst)

/-- The approved execution path (agent.ts lines 125-136): fire the logging
hook if configured, invoke `tool.function(...Object.values(toolArgs))`
(the `executed` event records exactly that positional argument list), wrap
the returned value or format the caught error. -/
def execOutcome (env : Env) (tool : ToolEntry) (toolName : String) (toolArgs : Args)
    (evs0 : List Event) : ToolResult × List Event :=
  let posArgs := toolArgs.map Prod.snd
  let evs1 := evs0 ++ (if env.onToolCall then [Event.logged toolName toolArgs] else [])
  let evs2 := evs1 ++ [Event.executed toolName posArgs]
  match tool.fn posArgs with
  | .ok v => (ToolResult.ok v, evs2)
  | .error msg => (ToolResult.err (formatError msg toolName toolArgs), evs2)

/-- The unknown-tool path (agent.ts lines 137-143): log the call for
debugging if the hook is configured, record the not-found error. -/
def unknownOutcome (env : Env) (toolName : String) (toolArgs : Args) :
    ToolResult × List Event :=
  let evs := if env.onToolCall then [Event.logged toolName toolArgs] else []
  (ToolResult.err ("Tool '" ++ toolName ++ "' not found. Available tools: " ++
      availableToolNames env),
    evs)

/-- The `result` of one requested invocation and the events its handling
emitted (agent.ts lines 105-143). -/
def callOutcome (env : Env) (fc : FunctionCall) : ToolResult × List Event :=
  let toolName := fc.name.getD "unknown"
  let toolArgs := fc.args.getD []
  match env.tools with
  | none => unknownOutcome env toolName toolArgs
  | some ts =>
    match lookupTool ts toolName with
    | none => unknownOutcome env toolName toolArgs
    | some tool =>
      match (if tool.requiresConfirmation then env.confirmAction else none) with
      | none => execOutcome env tool toolName toolArgs []
      | some confirm =>
        if confirm toolName toolArgs then
          execOutcome env tool toolName toolArgs [Event.confirmed toolName true]
        else
          (ToolResult.err "Action cancelled by user.", [Event.confirmed toolName false])

/-- Handling of one requested invocation (the body of the `for` loop,
agent.ts lines 104-148): every path pushes one
`functionResponse: (name, result)` Part for the invocation's name. -/
def handleCall (env : Env) (fc : FunctionCall) : Part × List Event :=
  (Part.functionResponse (fc.name.getD "unknown") (callOutcome env fc).1,
    (callOutcome env fc).2)

/-- The whole `for (const functionCall of response.functionCalls)` loop:
one result Part per invocation, in request order, events concatenated in
order. -/
def processCalls (env : Env) : List FunctionCall → List Part × List Event
  | [] => ([], [])
  | fc :: rest =>
    let pr := handleCall env fc
    let prs := processCalls env rest
    (pr.1 :: prs.1, pr.2 ++ prs.2)

/-- Outcome of the iteration-limit check at the head of `run`. -/
inductive LimitDecision
  | proceed (iteration : Nat) (evs : List Event)
  | halt (e : RunError) (evs : List Event)

/-- Modelled from the spec: the iteration-limit policy.  The branch with
`onMaxIterationsReached = none` is agent.ts lines 68-70 verbatim; the
on-limit-reached hook itself is missing from the agent source under src/
(only the repository's tests and the CLI caller reference it), so its
handling follows spec §4.1: invoke the hook with the current iteration
count; a true ("continue") answer resets the budget and proceeds, a false
("stop") answer raises the terminal stopped-by-user condition. -/
def checkLimit (env : Env) (iteration : Nat) (evs : List Event) : LimitDecision :=
  if env.maxIterations ≤ iteration then
    match env.onMaxIterationsReached with
    | none => .halt (.maxIterationsExceeded env.maxIterations) evs
    | some hook =>
      if hook iteration then .proceed 0 (evs ++ [Event.limitHook iteration true])
      else .halt (.stoppedByUser iteration) (evs ++ [Event.limitHook iteration false])
  else .proceed iteration evs

/-- Result of a `run` call: the returned response or the thrown error, the
conversation state, and the event trace. -/
structure RunResult where
  response : Except RunError GenerateContentResponse
  contents : List Content
  events : List Event
deriving Repr

/-- Appending the model's reply content when present (agent.ts lines
95-98). -/
def appendCandidate (cs : List Content) (response : GenerateContentResponse) :
    List Content :=
  match response.candidateContent with
  | some c => cs ++ [c]
  | none => cs

/-- `Agent.run` (agent.ts lines 66-155), with the recursion bounded by
explicit fuel: check the iteration limit, append the input Turn, call the
model on the full contents, append the model's candidate content when
present, and either return the response (no function calls) or process
every requested invocation and recurse on the collected response Parts
with the iteration counter incremented. -/
def run (env : Env) : Nat → List Content → List Event → Input → Nat → RunResult
  | 0, cs, evs, _, _ => ⟨.error .outOfFuel, cs, evs⟩
  | fuel + 1, cs, evs, input, iteration =>
    match checkLimit env iteration evs with
    | .halt e evs1 => ⟨.error e, cs, evs1⟩
    | .proceed iter0 evs1 =>
      let cs1 := cs ++ [inputContent input]
      let response := env.modelFn cs1
      let evs2 := evs1 ++ [Event.modelCalled]
      let cs2 := appendCandidate cs1 response
      match response.functionCalls with
      | some (fc :: rest) =>
        let pr := processCalls env (fc :: rest)
        run env fuel cs2 (evs2 ++ pr.2) (.parts pr.1) (iter0 + 1)
      | _ => ⟨.ok response, cs2, evs2⟩

/-- Whether an event is a firing of the logging hook. -/
def Event.isLogged : Event → Bool
  | .logged _ _ => true
  | _ => false

/-- Whether one requested invocation is denied by the confirmation gate: a
registered tool that requires confirmation, with a configured confirmation
hook that answers false on (name, args). -/
def deniedCall (env : Env) (fc : FunctionCall) : Bool :=
  let toolName := fc.name.getD "unknown"
  let toolArgs := fc.args.getD []
  match env.tools with
  | none => false
  | some ts =>
    match lookupTool ts toolName with
    | none => false
    | some tool =>
      match (if tool.requiresConfirmation then env.confirmAction else none) with
      | none => false
      | some confirm => Bool.not (confirm toolName toolArgs)

/-- The argument-passing rule as the spec's words state it, for the
refinement comparison with `execTool` (which follows the source): the
value bound to each schema parameter, taken in the declaration order of
the schema's parameter list. -/
def schemaOrderArgs (tool : ToolEntry) (toolArgs : Args) : List Value :=
  tool.definition.paramOrder.filterMap
    (fun k => (toolArgs.find? (fun p => p.1 == k)).map Prod.snd)

end Agent

namespace Tools

/-!
Embedding of the filesystem tools of `src/tools.ts`.  The filesystem is a
finite map from canonical absolute paths (segment lists) to nodes; the
root `[]` always exists and is a directory.  Mutating operations return
the new filesystem next to their result, and a thrown error returns the
filesystem as the operation left it.
-/

/-- A canonical absolute path, as its list of segments. -/
abbrev Path := List String

/-- A filesystem node: a regular file with its text contents, or a
directory (whose children are the paths one segment longer). -/
inductive FNode
  | file (contents : String)
  | dir
deriving DecidableEq, Repr

/-- A filesystem: a finite association list from canonical absolute paths
to nodes (operations keep the keys unique). -/
abbrev Fs := List (Path × FNode)

/-- The external parameters of path resolution: the home directory as an
absolute string (`os.homedir()`) and the working directory
(`process.cwd()`) as segments. -/
structure FsEnv where
  homedir : String
  cwd : Path

/-- Node lookup (`fs.statSync` kind information); the root `[]` is always
an existing directory. -/
def Fs.lookup (fs : Fs) (p : Path) : Option FNode :=
  if p = [] then some FNode.dir
  else (fs.find? (fun e => e.1 == p)).map Prod.snd

/-- `fs.existsSync`. -/
def Fs.existsp (fs : Fs) (p : Path) : Bool :=
  (fs.lookup p).isSome

/-- `stats.isDirectory()`. -/
def Fs.isDir (fs : Fs) (p : Path) : Bool :=
  fs.lookup p == some FNode.dir

/-- `fs.readdirSync`: the names of the immediate entries of `p`, in the
map's order. -/
def Fs.childNames (fs : Fs) (p : Path) : List String :=
  fs.filterMap (fun e =>
    if e.1.take p.length == p then
      match e.1.drop p.length with
      | [n] => some n
      | _ => none
    else none)

/-- `fs.writeFileSync` content placement: replace or create the file node
at `p`. -/
def Fs.setFile (fs : Fs) (p : Path) (c : String) : Fs :=
  fs.filter (fun e => e.1 ≠ p) ++ [(p, FNode.file c)]

/-- `fs.rmdirSync`: remove the single node at `p`. -/
def Fs.removeExact (fs : Fs) (p : Path) : Fs :=
  fs.filter (fun e => e.1 ≠ p)

/-- `fs.rmSync(p, recursive: true, force: true)`: remove `p` and every
path below it. -/
def Fs.removeSubtree (fs : Fs) (p : Path) : Fs :=
  fs.filter (fun e => e.1.take p.length ≠ p)

/-- The nonempty prefixes of a path, shortest first (the directories
`mkdirSync(..., recursive: true)` walks). -/
def ancestors (p : Path) : List Path :=
  (List.range p.length).map (fun k => p.take (k + 1))

/-- `fs.mkdirSync(p, recursive: true)`: create every missing prefix as a
directory; a prefix that exists as a regular file is the OS error
ENOTDIR. -/
def mkdirp (fs : Fs) (p : Path) : Except String Fs :=
  (ancestors p).foldl
    (fun acc q =>
      acc.bind (fun f =>
        match f.lookup q with
        | some FNode.dir => .ok f
        | some (FNode.file _) => .error "ENOTDIR: not a directory"
        | none => .ok (f ++ [(q, FNode.dir)])))
    (.ok fs)

/-- JS `.trim()`: strip surrounding whitespace (structural over the
character list, so that concrete witnesses evaluate in the kernel). -/
def strTrim (s : String) : String :=
  ⟨((s.data.dropWhile Char.isWhitespace).reverse.dropWhile Char.isWhitespace).reverse⟩

/-- Whether a string starts with the single character `c` (the only
`startsWith` checks the source performs are on `~` and `/`). -/
def strStartsWithChar (s : String) (c : Char) : Bool :=
  s.data.head? == some c

/-- JS `.toLowerCase()`, structurally. -/
def strToLower (s : String) : String :=
  ⟨s.data.map Char.toLower⟩

/-- Splitting a character list at every `/`. -/
def splitSlashAux : List Char → List (List Char)
  | [] => [[]]
  | c :: rest =>
    let r := splitSlashAux rest
    if c = '/' then [] :: r
    else (c :: r.headD []) :: r.tail

/-- Splitting a path string at every `/` (what `path.resolve` does to each
input segment string), structurally. -/
def splitSlash (s : String) : List String :=
  (splitSlashAux s.data).map (fun l => ⟨l⟩)

/-- `expandPath`-style home expansion inside `resolvePath` (tools.ts lines
95-97): a leading `~` becomes `path.join(os.homedir(), rest)`. -/
def expandHome (env : FsEnv) (s : String) : String :=
  if strStartsWithChar s '~' then
    let rest := s.drop 1
    env.homedir ++ (if strStartsWithChar rest '/' || rest = "" then rest else "/" ++ rest)
  else s

/-- Segment normalization of `path.resolve`: drop empty and `.` segments,
let `..` pop. -/
def resolveSegs : Path → List String → Path
  | acc, [] => acc
  | acc, seg :: rest =>
    if seg = "" || seg = "." then resolveSegs acc rest
    else if seg = ".." then resolveSegs acc.dropLast rest
    else resolveSegs (acc ++ [seg]) rest

/-- `resolvePath` (tools.ts lines 91-101): trim surrounding whitespace,
expand a leading `~`, resolve against the working directory to a
canonical absolute path. -/
def resolvePath (env : FsEnv) (inputPath : String) : Path :=
  let t := strTrim inputPath
  let e := expandHome env t
  let base := if strStartsWithChar e '/' then [] else env.cwd
  resolveSegs base (splitSlash e)

/-- Rendering a canonical path back to a string (`path.join(dir, similar)`
in the suggestion). -/
def renderPath (p : Path) : String :=
  "/" ++ String.intercalate "/" p

/-- The result of `validatePath`. -/
structure Validation where
  valid : Bool
  resolved : Path
  suggestion : Option String
deriving DecidableEq, Repr

/-- `validatePath` (tools.ts lines 106-123): resolve; if the path exists
it is valid; otherwise search the parent directory's immediate entries for
the first case-insensitive substring match in either direction and surface
it as a suggestion. -/
def validatePath (env : FsEnv) (fs : Fs) (inputPath : String) : Validation :=
  let resolved := resolvePath env inputPath
  if fs.existsp resolved then ⟨true, resolved, none⟩
  else
    let dir := resolved.dropLast
    let basename := strToLower (resolved.getLastD "")
    if fs.existsp dir then
      match (fs.childNames dir).find?
          (fun f => Agent.containsSub (strToLower f) basename ||
            Agent.containsSub basename (strToLower f)) with
      | some similar => ⟨false, resolved, some (renderPath (dir ++ [similar]))⟩
      | none => ⟨false, resolved, none⟩
    else ⟨false, resolved, none⟩

/-- The not-found message of the tools, with the optional suggestion. -/
def notFoundMsg (kind : String) (p : String) (sugg : Option String) : String :=
  kind ++ " not found: '" ++ p ++ "'" ++
    (match sugg with
     | some s => ". Did you mean '" ++ s ++ "'?"
     | none => "")

/-- The 100KB read ceiling (tools.ts line 235). -/
def MAX_SIZE : Nat := 100 * 1024

/-- `readFile` (tools.ts lines 218-241).  The size in the too-large
message is reported in whole KB (the source prints one decimal via
`toFixed(1)`). -/
def readFile (env : FsEnv) (fs : Fs) (filePath : String) : Except String String :=
  let v := validatePath env fs filePath
  if ¬ v.valid then
    .error (notFoundMsg "File" filePath v.suggestion)
  else
    match fs.lookup v.resolved with
    | some FNode.dir =>
        .error ("'" ++ filePath ++ "' is a directory, not a file. Use list_directory instead.")
    | some (FNode.file c) =>
        if MAX_SIZE < c.utf8ByteSize then
          .error ("File is too large (" ++ toString (c.utf8ByteSize / 1024) ++
            "KB). Maximum supported size is 100KB.")
        else .ok c
    | none => .error (notFoundMsg "File" filePath v.suggestion)

/-- `writeFile` (tools.ts lines 243-254): resolve, create missing parent
directories, then write; writing over a directory node is the OS error
EISDIR. -/
def writeFile (env : FsEnv) (fs : Fs) (filePath contents : String) :
    Except String String × Fs :=
  let resolved := resolvePath env filePath
  let dir := resolved.dropLast
  match (if fs.existsp dir then Except.ok fs else mkdirp fs dir) with
  | .error e => (.error e, fs)
  | .ok fs1 =>
    if ¬ fs1.isDir dir then (.error "ENOTDIR: not a directory", fs1)
    else
      match fs1.lookup resolved with
      | some FNode.dir => (.error "EISDIR: illegal operation on a directory", fs1)
      | _ =>
        (.ok ("Successfully wrote " ++ toString contents.length ++
            " characters to '" ++ filePath ++ "'"),
          fs1.setFile resolved contents)

/-- `listDirectory` (tools.ts lines 256-273). -/
def listDirectory (env : FsEnv) (fs : Fs) (directoryPath : String) :
    Except String (List String) :=
  let v := validatePath env fs directoryPath
  if ¬ v.valid then
    .error (notFoundMsg "Directory" directoryPath v.suggestion)
  else if ¬ fs.isDir v.resolved then
    .error ("'" ++ directoryPath ++ "' is a file, not a directory. Use read_file instead.")
  else .ok (fs.childNames v.resolved)

/-- `deleteFile` (tools.ts lines 275-293). -/
def deleteFile (env : FsEnv) (fs : Fs) (filePath : String) :
    Except String String × Fs :=
  let v := validatePath env fs filePath
  if ¬ v.valid then
    (.error (notFoundMsg "File" filePath v.suggestion), fs)
  else if fs.isDir v.resolved then
    (.error ("'" ++ filePath ++ "' is a directory, not a file. Use delete_directory instead."),
      fs)
  else
    (.ok ("Successfully deleted file: '" ++ filePath ++ "'"), fs.removeExact v.resolved)

/-- `deleteDirectory` (tools.ts lines 295-327): when not recursive, a
non-empty directory fails with the exact immediate entry count before any
removal. -/
def deleteDirectory (env : FsEnv) (fs : Fs) (directoryPath : String)
    (recursive : Bool := false) : Except String String × Fs :=
  let v := validatePath env fs directoryPath
  if ¬ v.valid then
    (.error (notFoundMsg "Directory" directoryPath v.suggestion), fs)
  else if ¬ fs.isDir v.resolved then
    (.error ("'" ++ directoryPath ++ "' is a file, not a directory. Use delete_file instead."),
      fs)
  else if ¬ recursive then
    let contents := fs.childNames v.resolved
    if 0 < contents.length then
      (.error ("Directory '" ++ directoryPath ++ "' is not empty (contains " ++
          toString contents.length ++
          " items). Use recursive=true to delete directory and all contents, or remove contents first."),
        fs)
    else
      (.ok ("Successfully deleted empty directory: '" ++ directoryPath ++ "'"),
        fs.removeExact v.resolved)
  else
    (.ok ("Successfully deleted directory and all contents: '" ++ directoryPath ++ "'"),
      fs.removeSubtree v.resolved)

end Tools

open Agent Tools

/-! Concrete fixtures used by witnesses and counterexamples. -/

/-- A model content Turn holding final text. -/
def cDone : Content := ⟨"model", [Part.text "done"]⟩

/-- An environment with no tools and no hooks whose model always answers
with an empty response. -/
def envBase : Env := ⟨none, none, false, none, 15, fun _ => ⟨none, none⟩⟩

/-- An environment whose model answers a plain text reply. -/
def envPlain : Env := ⟨none, none, false, none, 15, fun _ => ⟨some cDone, none⟩⟩

/-- An environment with the logging hook configured and an empty registry. -/
def envLogDemo : Env := ⟨some [], none, true, none, 15, fun _ => ⟨none, none⟩⟩

/-- An invocation of a name absent from every registry. -/
def fcUnknown : FunctionCall := ⟨some "nope", some []⟩

/-- A tool returning its first positional argument, with schema parameter
order `a`, `b`. -/
def toolFirstArg : ToolEntry :=
  ⟨⟨"first_arg", "returns its first positional argument", ["a", "b"]⟩,
    fun vs => .ok (vs.headD (Value.vInt 0)), false⟩

/-- A registry holding only `toolFirstArg`, no hooks. -/
def envArgsDemo : Env :=
  ⟨some [("first_arg", toolFirstArg)], none, false, none, 15, fun _ => ⟨none, none⟩⟩

/-- An invocation of `first_arg` whose argument mapping lists `b` before
`a` (legal: a JS object's keys carry their own insertion order). -/
def fcSwapped : FunctionCall :=
  ⟨some "first_arg", some [("b", Value.vInt 1), ("a", Value.vInt 2)]⟩

/-- A confirmation-required tool. -/
def toolDel : ToolEntry :=
  ⟨⟨"delete_file", "deletes a file", ["file_path"]⟩,
    fun _ => .ok (Value.vBool true), true⟩

/-- An environment whose confirmation hook denies everything, logging hook
configured. -/
def envDeny : Env :=
  ⟨some [("delete_file", toolDel)], some (fun _ _ => false), true, none, 15,
    fun _ => ⟨none, none⟩⟩

/-- An invocation of the confirmation-required tool. -/
def fcDel : FunctionCall :=
  ⟨some "delete_file", some [("file_path", Value.vStr "/tmp/x")]⟩

/-- A confirmation-required tool that returns its first positional
argument, with schema parameter order `file_path`, `contents`. -/
def toolWriteDemo : ToolEntry :=
  ⟨⟨"write_file", "writes a file", ["file_path", "contents"]⟩,
    fun vs => .ok (vs.headD (Value.vInt 0)), true⟩

/-- A registry holding only the confirmation-required `toolWriteDemo`,
with a confirmation hook that approves everything. -/
def envApprove : Env :=
  ⟨some [("write_file", toolWriteDemo)], some (fun _ _ => true), false, none, 15,
    fun _ => ⟨none, none⟩⟩

/-- An invocation of `write_file` whose argument mapping lists `contents`
before `file_path`. -/
def fcWrite : FunctionCall :=
  ⟨some "write_file",
    some [("contents", Value.vStr "hi"), ("file_path", Value.vStr "/tmp/x")]⟩

/-- An environment whose on-limit hook answers stop, budget 1. -/
def envHookStop : Env := ⟨none, none, false, some (fun _ => false), 1, fun _ => ⟨none, none⟩⟩

/-- An environment whose on-limit hook answers continue, budget 1. -/
def envHookGo : Env := ⟨none, none, false, some (fun _ => true), 1, fun _ => ⟨none, none⟩⟩

/-- A model that requests `first_arg` twice (second one unknown name) on
the first call and finishes on later calls. -/
def envTwoCalls : Env :=
  ⟨some [("first_arg", toolFirstArg)], none, false, none, 15,
    fun cs => if cs.length ≤ 1 then ⟨some ⟨"model", []⟩, some [fcSwapped, fcUnknown]⟩
      else ⟨some cDone, none⟩⟩

/-- A filesystem with a directory `/tmp/d` holding three entries. -/
def fsDemo : Fs :=
  [(["tmp"], FNode.dir), (["tmp", "d"], FNode.dir),
   (["tmp", "d", "a"], FNode.file "x"), (["tmp", "d", "b"], FNode.file "y"),
   (["tmp", "d", "c"], FNode.dir)]

/-- Home `/root`, working directory `/`. -/
def fsEnvDemo : FsEnv := ⟨"/root", []⟩


/-! Helper lemmas. -/

/-- The loop produces exactly the per-invocation Parts, in request order. -/
theorem processCalls_fst (env : Env) :
    ∀ l : List FunctionCall,
      (processCalls env l).1 = l.map (fun f => (handleCall env f).1)
  | [] => rfl
  | fc :: rest => by
    simp [processCalls, processCalls_fst env rest]

/-- The events of the approved execution path, independent of whether the
tool returns or throws. -/
theorem execOutcome_snd (env : Env) (tool : ToolEntry) (toolName : String)
    (toolArgs : Args) (evs0 : List Event) :
    (execOutcome env tool toolName toolArgs evs0).2 =
      evs0 ++ (if env.onToolCall then [Event.logged toolName toolArgs] else []) ++
        [Event.executed toolName (toolArgs.map Prod.snd)] := by
  unfold execOutcome
  cases h : tool.fn (toolArgs.map Prod.snd) <;> simp [h]

/-- Every invocation yields one functionResponse Part carrying the
requested name (defaulted to "unknown"). -/
theorem handleCall_fst (env : Env) (fc : FunctionCall) :
    ∃ r, (handleCall env fc).1 =
      Part.functionResponse (fc.name.getD "unknown") r :=
  ⟨(callOutcome env fc).1, rfl⟩

/-- `containsSub` holds for the middle of any three-way concatenation. -/
theorem containsSub_middle (a b c : String) : containsSub (a ++ b ++ c) b = true := by
  apply decide_eq_true
  exact ⟨a.data, c.data, by simp⟩

/-- `containsSub` is stable under appending on the right. -/
theorem containsSub_append_left (s t pat : String)
    (h : containsSub s pat = true) : containsSub (s ++ t) pat = true := by
  apply decide_eq_true
  have h' := of_decide_eq_true h
  exact h'.trans ⟨[], t.data, by simp⟩

/-- The iteration-limit check only appends to the event trace. -/
theorem checkLimit_evs (env : Env) (iteration : Nat) (evs : List Event) :
    (∃ i x, checkLimit env iteration evs = .proceed i (evs ++ x)) ∨
    (∃ e x, checkLimit env iteration evs = .halt e (evs ++ x)) := by
  unfold checkLimit
  split
  · cases h : env.onMaxIterationsReached with
    | none =>
      exact Or.inr ⟨RunError.maxIterationsExceeded env.maxIterations, [], by simp⟩
    | some hook =>
      cases hh : hook iteration with
      | true =>
        exact Or.inl ⟨0, [Event.limitHook iteration true], by simp [hh]⟩
      | false =>
        exact Or.inr ⟨RunError.stoppedByUser iteration,
          [Event.limitHook iteration false], by simp [hh]⟩
  · exact Or.inl ⟨iteration, [], by simp⟩

/-- A run only appends to the event trace. -/
theorem run_events_mono (env : Env) :
    ∀ (fuel : Nat) (cs : List Content) (evs : List Event) (input : Input)
      (iteration : Nat),
      ∃ tail, (run env fuel cs evs input iteration).events = evs ++ tail := by
  intro fuel
  induction fuel with
  | zero =>
    intro cs evs input iteration
    exact ⟨[], by simp [run]⟩
  | succ fuel ih =>
    intro cs evs input iteration
    rcases checkLimit_evs env iteration evs with ⟨i, x, hcl⟩ | ⟨e, x, hcl⟩
    · simp only [run, hcl]
      rcases hfc : (env.modelFn (cs ++ [inputContent input])).functionCalls
        with _ | (_ | ⟨fc, rest⟩)
      · exact ⟨x ++ [Event.modelCalled], by simp⟩
      · exact ⟨x ++ [Event.modelCalled], by simp⟩
      · dsimp only
        obtain ⟨tail, htail⟩ := ih
          (appendCandidate (cs ++ [inputContent input])
            (env.modelFn (cs ++ [inputContent input])))
          (((evs ++ x) ++ [Event.modelCalled]) ++ (processCalls env (fc :: rest)).2)
          (.parts (processCalls env (fc :: rest)).1) (i + 1)
        refine ⟨x ++ [Event.modelCalled] ++ (processCalls env (fc :: rest)).2 ++ tail, ?_⟩
        rw [htail]
        simp
    · simp only [run, hcl]
      exact ⟨x, rfl⟩

/-! Claim theorems. -/

/-- C7: with no on-limit hook configured and the iteration counter at or
over the configured maximum at the start of a round, `run` raises the
"maximum iterations" condition, appending no Turn, emitting no event and
calling the model zero times. -/
theorem C7_max_iterations_before_any_work (env : Env) (fuel : Nat)
    (cs : List Content) (evs : List Event) (input : Input) (iteration : Nat)
    (hnone : env.onMaxIterationsReached = none)
    (hge : env.maxIterations ≤ iteration) :
    run env (fuel + 1) cs evs input iteration =
      ⟨.error (RunError.maxIterationsExceeded env.maxIterations), cs, evs⟩ ∧
    containsSub (RunError.maxIterationsExceeded env.maxIterations).message
      "maximum iterations" = true := by
  constructor
  · have hcl : checkLimit env iteration evs =
        .halt (RunError.maxIterationsExceeded env.maxIterations) evs := by
      simp [checkLimit, hge, hnone]
    simp [run, hcl]
  · show containsSub ("Agent exceeded maximum iterations (" ++
        toString env.maxIterations ++ "). Stopping to prevent infinite loop.")
        "maximum iterations" = true
    have h1 : containsSub ("Agent exceeded maximum iterations (")
        "maximum iterations" = true := by
      have : ("Agent exceeded maximum iterations (" : String) =
          "Agent exceeded " ++ "maximum iterations" ++ " (" := by decide
      rw [this]
      exact containsSub_middle _ _ _
    exact containsSub_append_left _ _ _ (containsSub_append_left _ _ _ h1)

/-- C7 witness: a concrete agent with the default budget 15 and no hook,
entered at iteration 15. -/
theorem C7_witness :
    run envBase (0 + 1) [] [] (.str "hi") 15 =
      ⟨.error (RunError.maxIterationsExceeded 15), [], []⟩ :=
  (C7_max_iterations_before_any_work envBase 0 [] [] (.str "hi") 15 rfl
    (by decide)).1

/-- C2: a `run` call whose model response carries candidate content and no
tool-invocation requests appends exactly two Turns — the user-role Turn
wrapping the input, then the model's reply content — and returns that
response unchanged. -/
theorem C2_no_calls_two_turns (env : Env) (fuel : Nat) (cs : List Content)
    (evs : List Event) (input : Input) (iteration : Nat) (c : Content)
    (hiter : iteration < env.maxIterations)
    (hcand : (env.modelFn (cs ++ [inputContent input])).candidateContent = some c)
    (hnc : (env.modelFn (cs ++ [inputContent input])).functionCalls = none ∨
      (env.modelFn (cs ++ [inputContent input])).functionCalls = some []) :
    run env (fuel + 1) cs evs input iteration =
      ⟨.ok (env.modelFn (cs ++ [inputContent input])),
        cs ++ [inputContent input, c], evs ++ [Event.modelCalled]⟩ ∧
    (inputContent input).role = "user" := by
  constructor
  · have hcl : checkLimit env iteration evs = .proceed iteration evs := by
      simp [checkLimit, Nat.not_le.mpr hiter]
    simp only [run, hcl]
    rcases hnc with h | h <;>
      simp [h, appendCandidate, hcand]
  · cases input <;> rfl

/-- C2 witness: one round against a model that answers plain text. -/
theorem C2_witness :
    run envPlain (0 + 1) [] [] (.str "hi") 0 =
      ⟨.ok ⟨some cDone, none⟩, [inputContent (.str "hi"), cDone],
        [Event.modelCalled]⟩ :=
  (C2_no_calls_two_turns envPlain 0 [] [] (.str "hi") 0 cDone (by decide)
    rfl (Or.inl rfl)).1

/-- C10: when the model response carries no candidate content, only the
user-role input Turn is appended — conversation state grows by exactly one
Turn — and with no tool-invocation requests the response is still returned
without error. -/
theorem C10_no_candidate_content (env : Env) (fuel : Nat) (cs : List Content)
    (evs : List Event) (input : Input) (iteration : Nat)
    (hiter : iteration < env.maxIterations)
    (hcand : (env.modelFn (cs ++ [inputContent input])).candidateContent = none)
    (hnc : (env.modelFn (cs ++ [inputContent input])).functionCalls = none ∨
      (env.modelFn (cs ++ [inputContent input])).functionCalls = some []) :
    run env (fuel + 1) cs evs input iteration =
      ⟨.ok (env.modelFn (cs ++ [inputContent input])),
        cs ++ [inputContent input], evs ++ [Event.modelCalled]⟩ := by
  have hcl : checkLimit env iteration evs = .proceed iteration evs := by
    simp [checkLimit, Nat.not_le.mpr hiter]
  simp only [run, hcl]
  rcases hnc with h | h <;>
    simp [h, appendCandidate, hcand]

/-- C10 witness: one round against a model that answers an empty
response. -/
theorem C10_witness :
    run envBase (0 + 1) [] [] (.str "hi") 0 =
      ⟨.ok ⟨none, none⟩, [inputContent (.str "hi")], [Event.modelCalled]⟩ :=
  C10_no_candidate_content envBase 0 [] [] (.str "hi") 0 (by decide) rfl
    (Or.inl rfl)

/-- C4: with the on-limit hook configured and the counter at or over the
maximum, `run` invokes the hook with the current iteration count; a stop
answer raises the terminal "stopped by user" condition without touching
conversation state, and a continue answer proceeds with at least one
further model call. -/
theorem C4_on_limit_hook (env : Env) (fuel : Nat) (cs : List Content)
    (evs : List Event) (input : Input) (iteration : Nat) (hook : Nat → Bool)
    (hhook : env.onMaxIterationsReached = some hook)
    (hge : env.maxIterations ≤ iteration) :
    (hook iteration = false →
      run env (fuel + 1) cs evs input iteration =
        ⟨.error (RunError.stoppedByUser iteration), cs,
          evs ++ [Event.limitHook iteration false]⟩) ∧
    (hook iteration = true →
      ∃ tail, (run env (fuel + 1) cs evs input iteration).events =
        evs ++ Event.limitHook iteration true :: Event.modelCalled :: tail) := by
  constructor
  · intro h
    have hcl : checkLimit env iteration evs =
        .halt (RunError.stoppedByUser iteration)
          (evs ++ [Event.limitHook iteration false]) := by
      simp [checkLimit, hge, hhook, h]
    simp [run, hcl]
  · intro h
    have hcl : checkLimit env iteration evs =
        .proceed 0 (evs ++ [Event.limitHook iteration true]) := by
      simp [checkLimit, hge, hhook, h]
    simp only [run, hcl]
    rcases hfc : (env.modelFn (cs ++ [inputContent input])).functionCalls
      with _ | (_ | ⟨fc, rest⟩)
    · exact ⟨[], by simp⟩
    · exact ⟨[], by simp⟩
    · dsimp only
      obtain ⟨tail, htail⟩ := run_events_mono env fuel
        (appendCandidate (cs ++ [inputContent input])
          (env.modelFn (cs ++ [inputContent input])))
        (((evs ++ [Event.limitHook iteration true]) ++ [Event.modelCalled]) ++
          (processCalls env (fc :: rest)).2)
        (.parts (processCalls env (fc :: rest)).1) (0 + 1)
      refine ⟨(processCalls env (fc :: rest)).2 ++ tail, ?_⟩
      rw [htail]
      simp

/-- C4 witness: the stop answer at budget 1, and the continue answer
leading to a further model call. -/
theorem C4_witness :
    (run envHookStop (0 + 1) [] [] (.str "hi") 1 =
      ⟨.error (RunError.stoppedByUser 1), [], [Event.limitHook 1 false]⟩) ∧
    (∃ tail, (run envHookGo (0 + 1) [] [] (.str "hi") 1).events =
      [] ++ Event.limitHook 1 true :: Event.modelCalled :: tail) :=
  ⟨(C4_on_limit_hook envHookStop 0 [] [] (.str "hi") 1 (fun _ => false) rfl
      (by decide)).1 rfl,
    (C4_on_limit_hook envHookGo 0 [] [] (.str "hi") 1 (fun _ => true) rfl
      (by decide)).2 rfl⟩

/-- C1: when the model response requests invocations, `run` handles every
one of them in request order — whatever kind (registered, unknown, denied,
failing) — appends exactly one functionResponse Part per invocation
carrying that invocation's name, and recurses with those Parts as the
single user-role input. -/
theorem C1_one_result_part_per_call_in_order (env : Env) (fuel : Nat)
    (cs : List Content) (evs : List Event) (input : Input) (iteration : Nat)
    (fc : FunctionCall) (rest : List FunctionCall)
    (hiter : iteration < env.maxIterations)
    (hcalls : (env.modelFn (cs ++ [inputContent input])).functionCalls =
      some (fc :: rest)) :
    run env (fuel + 1) cs evs input iteration =
      run env fuel
        (appendCandidate (cs ++ [inputContent input])
          (env.modelFn (cs ++ [inputContent input])))
        (evs ++ [Event.modelCalled] ++ (processCalls env (fc :: rest)).2)
        (.parts ((fc :: rest).map (fun f => (handleCall env f).1)))
        (iteration + 1) ∧
    ((fc :: rest).map (fun f => (handleCall env f).1)).length =
      (fc :: rest).length ∧
    (∀ f ∈ fc :: rest, ∃ r, (handleCall env f).1 =
      Part.functionResponse (f.name.getD "unknown") r) ∧
    inputContent (.parts ((fc :: rest).map (fun f => (handleCall env f).1))) =
      ⟨"user", (fc :: rest).map (fun f => (handleCall env f).1)⟩ := by
  refine ⟨?_, by simp, fun f _ => handleCall_fst env f, rfl⟩
  have hcl : checkLimit env iteration evs = .proceed iteration evs := by
    simp [checkLimit, Nat.not_le.mpr hiter]
  simp only [run, hcl]
  rw [hcalls]
  dsimp only
  rw [processCalls_fst env (fc :: rest)]

/-- C1 witness: a model requesting two invocations (one with the argument
mapping out of schema order, one unknown). -/
theorem C1_witness :
    (∀ f ∈ fcSwapped :: [fcUnknown], ∃ r, (handleCall envTwoCalls f).1 =
      Part.functionResponse (f.name.getD "unknown") r) ∧
    ((fcSwapped :: [fcUnknown]).map (fun f => (handleCall envTwoCalls f).1)).length =
      (fcSwapped :: [fcUnknown]).length :=
  ⟨(C1_one_result_part_per_call_in_order envTwoCalls 2 [] [] (.str "go") 0
      fcSwapped [fcUnknown] (by decide) rfl).2.2.1,
    (C1_one_result_part_per_call_in_order envTwoCalls 2 [] [] (.str "go") 0
      fcSwapped [fcUnknown] (by decide) rfl).2.1⟩

/-- C3: a denied confirmation never invokes the tool's executable (no
`executed` event is emitted, and no logging either), records the
structured "cancelled by user" result for that invocation, and the loop
still processes the remaining invocations. -/
theorem C3_denied_confirmation (env : Env) (ts : List (String × ToolEntry))
    (fc : FunctionCall) (rest : List FunctionCall) (tool : ToolEntry)
    (confirm : String → Args → Bool) (toolName : String)
    (htools : env.tools = some ts)
    (hname : fc.name = some toolName)
    (hlook : lookupTool ts toolName = some tool)
    (hreq : tool.requiresConfirmation = true)
    (hconf : env.confirmAction = some confirm)
    (hdeny : confirm toolName (fc.args.getD []) = false) :
    handleCall env fc =
      (Part.functionResponse toolName (ToolResult.err "Action cancelled by user."),
        [Event.confirmed toolName false]) ∧
    (∀ n a, Event.executed n a ∉ (handleCall env fc).2) ∧
    (∀ n a, Event.logged n a ∉ (handleCall env fc).2) ∧
    (processCalls env (fc :: rest)).1 =
      Part.functionResponse toolName (ToolResult.err "Action cancelled by user.") ::
        (processCalls env rest).1 ∧
    (processCalls env (fc :: rest)).1.length = rest.length + 1 := by
  have hout : callOutcome env fc =
      (ToolResult.err "Action cancelled by user.", [Event.confirmed toolName false]) := by
    simp [callOutcome, htools, hname, hlook, hreq, hconf, hdeny]
  have h1 : handleCall env fc =
      (Part.functionResponse toolName (ToolResult.err "Action cancelled by user."),
        [Event.confirmed toolName false]) := by
    simp [handleCall, hout, hname]
  refine ⟨h1, ?_, ?_, ?_, ?_⟩
  · intro n a
    simp [h1]
  · intro n a
    simp [h1]
  · simp [processCalls, h1]
  · simp [processCalls_fst]

/-- C3 witness: a confirmation-required tool, a hook that denies. -/
theorem C3_witness :
    handleCall envDeny fcDel =
      (Part.functionResponse "delete_file"
          (ToolResult.err "Action cancelled by user."),
        [Event.confirmed "delete_file" false]) :=
  (C3_denied_confirmation envDeny [("delete_file", toolDel)] fcDel [] toolDel
    (fun _ _ => false) "delete_file" rfl rfl rfl rfl rfl rfl).1

/-- C6 counterexample: with the logging hook configured, an invocation
whose name is absent from the registry does fire the logging hook (the
source logs unknown-tool calls for debugging, agent.ts lines 138-141),
contradicting the claim that the hook is never fired for unknown
invocations. -/
theorem C6_counterexample :
    lookupTool [] "nope" = none ∧
    (handleCall envLogDemo fcUnknown).2.any Event.isLogged = true ∧
    (handleCall envLogDemo fcUnknown).2 = [Event.logged "nope" []] := by
  refine ⟨rfl, rfl, rfl⟩

/-- C6 (amended): the logging hook fires exactly for invocations that are
not denied by the confirmation gate — that is, for every invocation that
proceeds to execution and also for unknown-tool invocations — and never
for a denied invocation. -/
theorem C6_amended_logging_iff_not_denied (env : Env) (fc : FunctionCall) :
    ((handleCall env fc).2.any Event.isLogged = true) ↔
      (env.onToolCall = true ∧ deniedCall env fc = false) := by
  have hev : (handleCall env fc).2 = (callOutcome env fc).2 := rfl
  rw [hev]
  cases htools : env.tools with
  | none =>
    cases ho : env.onToolCall <;>
      simp [callOutcome, deniedCall, htools, unknownOutcome, Event.isLogged, ho]
  | some ts =>
    cases hl : lookupTool ts (fc.name.getD "unknown") with
    | none =>
      cases ho : env.onToolCall <;>
        simp [callOutcome, deniedCall, htools, hl, unknownOutcome, Event.isLogged, ho]
    | some tool =>
      cases hco : (if tool.requiresConfirmation then env.confirmAction else none) with
      | none =>
        cases hfn : tool.fn ((fc.args.getD []).map Prod.snd) with
        | ok v =>
          cases ho : env.onToolCall <;>
            simp [callOutcome, deniedCall, htools, hl, hco, execOutcome,
              Event.isLogged, ho, hfn]
        | error m =>
          cases ho : env.onToolCall <;>
            simp [callOutcome, deniedCall, htools, hl, hco, execOutcome,
              Event.isLogged, ho, hfn]
      | some confirm =>
        cases hc : confirm (fc.name.getD "unknown") (fc.args.getD []) with
        | true =>
          cases hfn : tool.fn ((fc.args.getD []).map Prod.snd) with
          | ok v =>
            cases ho : env.onToolCall <;>
              simp [callOutcome, deniedCall, htools, hl, hco, hc, execOutcome,
                Event.isLogged, ho, hfn]
          | error m =>
            cases ho : env.onToolCall <;>
              simp [callOutcome, deniedCall, htools, hl, hco, hc, execOutcome,
                Event.isLogged, ho, hfn]
        | false =>
          simp [callOutcome, deniedCall, htools, hl, hco, hc, Event.isLogged]

/-- If an argument mapping's keys (no duplicates, as in a JS object) are
looked up in their own order, the values come back in mapping order. -/
theorem filterMap_lookup_self (l : Args) (hnd : (l.map Prod.fst).Nodup) :
    (l.map Prod.fst).filterMap
      (fun k => (l.find? (fun p => p.1 == k)).map Prod.snd) =
      l.map Prod.snd := by
  induction l with
  | nil => rfl
  | cons kv t ih =>
    obtain ⟨k, v⟩ := kv
    simp only [List.map_cons, List.nodup_cons] at hnd ⊢
    obtain ⟨hk, hnd'⟩ := hnd
    rw [List.filterMap_cons]
    have hhead : (((k, v) :: t).find? (fun p => p.1 == k)).map Prod.snd = some v := by
      simp
    rw [hhead]
    have hcongr : (t.map Prod.fst).filterMap
        (fun k' => (((k, v) :: t).find? (fun p => p.1 == k')).map Prod.snd) =
        (t.map Prod.fst).filterMap
          (fun k' => (t.find? (fun p => p.1 == k')).map Prod.snd) := by
      apply List.filterMap_congr
      intro k' hk'
      have hne : (k == k') = false := by
        rcases List.mem_map.mp hk' with ⟨p, hp, hpk⟩
        have : k ≠ k' := fun he => hk (he ▸ hk' : k ∈ t.map Prod.fst)
        simp [this]
      rw [List.find?_cons_of_neg]
      simp [hne]
    rw [hcongr, ih hnd']

/-- C5 counterexample: a tool whose schema declares parameters in the
order `a`, `b`, invoked with the argument mapping listing `b` first.  The
loop passes `Object.values` of the mapping — the value of `b` first — not
the schema-declaration-order list, and the tool observes `b`'s value as
its first positional argument. -/
theorem C5_counterexample :
    Event.executed "first_arg" [Value.vInt 1, Value.vInt 2] ∈
      (handleCall envArgsDemo fcSwapped).2 ∧
    schemaOrderArgs toolFirstArg [("b", Value.vInt 1), ("a", Value.vInt 2)] =
      [Value.vInt 2, Value.vInt 1] ∧
    ([Value.vInt 1, Value.vInt 2] : List Value) ≠ [Value.vInt 2, Value.vInt 1] ∧
    (handleCall envArgsDemo fcSwapped).1 =
      Part.functionResponse "first_arg" (ToolResult.ok (Value.vInt 1)) := by
  refine ⟨?_, rfl, by decide, rfl⟩
  decide

/-- C5 (amended): every executed tool invocation — a registered tool that
is not confirmation-required, or has no confirmation hook configured, or
is approved by the hook — receives the argument mapping's values
positionally in the mapping's own enumeration (insertion) order; this
coincides with the schema's declared parameter order exactly when the
model emits the mapping with its keys in that order. -/
theorem C5_amended_args_in_mapping_order (env : Env)
    (ts : List (String × ToolEntry)) (fc : FunctionCall) (toolName : String)
    (toolArgs : Args) (tool : ToolEntry)
    (htools : env.tools = some ts)
    (hname : fc.name = some toolName)
    (hargs : fc.args = some toolArgs)
    (hlook : lookupTool ts toolName = some tool)
    (hexec : tool.requiresConfirmation = false ∨ env.confirmAction = none ∨
      ∃ confirm, env.confirmAction = some confirm ∧
        confirm toolName toolArgs = true) :
    Event.executed toolName (toolArgs.map Prod.snd) ∈ (handleCall env fc).2 ∧
    (toolArgs.map Prod.fst = tool.definition.paramOrder →
      (toolArgs.map Prod.fst).Nodup →
      schemaOrderArgs tool toolArgs = toolArgs.map Prod.snd) := by
  constructor
  · have hev : (handleCall env fc).2 = (callOutcome env fc).2 := rfl
    have hmem : ∀ evs0 : List Event,
        Event.executed toolName (toolArgs.map Prod.snd) ∈
          (execOutcome env tool toolName toolArgs evs0).2 := by
      intro evs0
      rw [execOutcome_snd]
      simp
    rw [hev]
    rcases hexec with hnoconf | hnone | ⟨confirm, hconf, happrove⟩
    · have hout : (callOutcome env fc).2 =
          (execOutcome env tool toolName toolArgs []).2 := by
        simp [callOutcome, htools, hname, hargs, hlook, hnoconf]
      rw [hout]
      exact hmem []
    · cases hrc : tool.requiresConfirmation with
      | false =>
        have hout : (callOutcome env fc).2 =
            (execOutcome env tool toolName toolArgs []).2 := by
          simp [callOutcome, htools, hname, hargs, hlook, hrc]
        rw [hout]
        exact hmem []
      | true =>
        have hout : (callOutcome env fc).2 =
            (execOutcome env tool toolName toolArgs []).2 := by
          simp [callOutcome, htools, hname, hargs, hlook, hrc, hnone]
        rw [hout]
        exact hmem []
    · cases hrc : tool.requiresConfirmation with
      | false =>
        have hout : (callOutcome env fc).2 =
            (execOutcome env tool toolName toolArgs []).2 := by
          simp [callOutcome, htools, hname, hargs, hlook, hrc]
        rw [hout]
        exact hmem []
      | true =>
        have hout : (callOutcome env fc).2 =
            (execOutcome env tool toolName toolArgs
              [Event.confirmed toolName true]).2 := by
          simp [callOutcome, htools, hname, hargs, hlook, hrc, hconf, happrove]
        rw [hout]
        exact hmem [Event.confirmed toolName true]
  · intro horder hnd
    unfold schemaOrderArgs
    rw [← horder]
    exact filterMap_lookup_self toolArgs hnd

/-- C5 amended witness: the swapped-order invocation of the unguarded
`first_arg`, and the swapped-order invocation of the confirmation-required
`write_file` approved by the configured hook — both receive the mapping's
values in mapping order. -/
theorem C5_amended_witness :
    Event.executed "first_arg" [Value.vInt 1, Value.vInt 2] ∈
      (handleCall envArgsDemo fcSwapped).2 ∧
    Event.executed "write_file" [Value.vStr "hi", Value.vStr "/tmp/x"] ∈
      (handleCall envApprove fcWrite).2 :=
  ⟨(C5_amended_args_in_mapping_order envArgsDemo [("first_arg", toolFirstArg)]
      fcSwapped "first_arg" [("b", Value.vInt 1), ("a", Value.vInt 2)]
      toolFirstArg rfl rfl rfl rfl (Or.inl rfl)).1,
    (C5_amended_args_in_mapping_order envApprove [("write_file", toolWriteDemo)]
      fcWrite "write_file"
      [("contents", Value.vStr "hi"), ("file_path", Value.vStr "/tmp/x")]
      toolWriteDemo rfl rfl rfl rfl
      (Or.inr (Or.inr ⟨fun _ _ => true, rfl, rfl⟩))).1⟩

/-- Writing places the file node at the written path. -/
theorem lookup_setFile_self (fs : Fs) (p : Path) (c : String) (hp : p ≠ []) :
    Fs.lookup (Fs.setFile fs p c) p = some (FNode.file c) := by
  unfold Fs.lookup Fs.setFile
  rw [if_neg hp, List.find?_append]
  have h1 : (fs.filter (fun e => e.1 ≠ p)).find? (fun e => e.1 == p) = none := by
    rw [List.find?_eq_none]
    intro x hx
    have hne := (List.mem_filter.mp hx).2
    simp at hne ⊢
    exact hne
  rw [h1]
  simp

/-- C9: reading a path immediately after a successful write of `contents`
to the same path returns exactly `contents`, for any contents at or under
the 100KB ceiling (the empty string and multi-byte text included). -/
theorem C9_write_read_roundtrip (env : FsEnv) (fs : Fs)
    (filePath contents msg : String) (fs' : Fs)
    (hsize : contents.utf8ByteSize ≤ MAX_SIZE)
    (hw : writeFile env fs filePath contents = (.ok msg, fs')) :
    readFile env fs' filePath = .ok contents := by
  simp only [writeFile] at hw
  split at hw
  · simp at hw
  · rename_i fs1 heq
    split at hw
    · simp at hw
    · rename_i hdir
      split at hw
      · simp at hw
      · rename_i hnotdir
        rw [Prod.mk.injEq] at hw
        obtain ⟨hmsg, hfs'⟩ := hw
        have hne : resolvePath env filePath ≠ [] := by
          intro h0
          exact hnotdir (by rw [h0]; rfl)
        have hlook2 : fs'.lookup (resolvePath env filePath) =
            some (FNode.file contents) := by
          rw [← hfs']
          exact lookup_setFile_self fs1 (resolvePath env filePath) contents hne
        have hval : validatePath env fs' filePath =
            ⟨true, resolvePath env filePath, none⟩ := by
          unfold validatePath
          rw [if_pos]
          unfold Fs.existsp
          rw [hlook2]
          rfl
        unfold readFile
        rw [hval]
        simp only [Bool.not_true, not_true_eq_false, if_neg, hlook2]
        rw [if_neg (Nat.not_lt.mpr hsize)]
        simp

/-- C9 witness: a multi-byte write-then-read round trip into an empty
filesystem (parent directories created on the way), and an empty-string
round trip. -/
theorem C9_witness :
    readFile fsEnvDemo (writeFile fsEnvDemo [] "/tmp/notes.txt" "héllo🙂").2
        "/tmp/notes.txt" = .ok "héllo🙂" ∧
    readFile fsEnvDemo (writeFile fsEnvDemo [] "/tmp/empty.txt" "").2
        "/tmp/empty.txt" = .ok "" :=
  ⟨C9_write_read_roundtrip fsEnvDemo [] "/tmp/notes.txt" "héllo🙂" _ _
      (by decide) rfl,
    C9_write_read_roundtrip fsEnvDemo [] "/tmp/empty.txt" "" _ _
      (by decide) rfl⟩

/-- C8: deleting a non-empty directory without the recursive flag fails,
the failure message reports the directory's exact immediate entry count,
and the filesystem is returned unchanged (nothing is removed). -/
theorem C8_nonrecursive_delete_nonempty (env : FsEnv) (fs : Fs)
    (directoryPath : String)
    (hdir : fs.isDir (resolvePath env directoryPath) = true)
    (hne : fs.childNames (resolvePath env directoryPath) ≠ []) :
    ∃ msg, deleteDirectory env fs directoryPath false = (.error msg, fs) ∧
      containsSub msg
        (toString (fs.childNames (resolvePath env directoryPath)).length ++
          " items") = true := by
  have hlook : fs.lookup (resolvePath env directoryPath) = some FNode.dir := by
    have := hdir
    unfold Fs.isDir at this
    exact eq_of_beq this
  have hex : fs.existsp (resolvePath env directoryPath) = true := by
    unfold Fs.existsp
    rw [hlook]
    rfl
  have hval : validatePath env fs directoryPath =
      ⟨true, resolvePath env directoryPath, none⟩ := by
    unfold validatePath
    rw [if_pos hex]
  have hpos : 0 < (fs.childNames (resolvePath env directoryPath)).length :=
    List.length_pos.mpr hne
  refine ⟨"Directory '" ++ directoryPath ++ "' is not empty (contains " ++
    toString (fs.childNames (resolvePath env directoryPath)).length ++
    " items). Use recursive=true to delete directory and all contents, or remove contents first.",
    ?_, ?_⟩
  · unfold deleteDirectory
    rw [hval]
    simp only [hdir]
    simp [hpos]
  · have hsplit : (" items). Use recursive=true to delete directory and all contents, or remove contents first." : String) =
        " items" ++ "). Use recursive=true to delete directory and all contents, or remove contents first." := by
      decide
    rw [hsplit]
    apply decide_eq_true
    refine ⟨("Directory '" ++ directoryPath ++ "' is not empty (contains ").data,
      ("). Use recursive=true to delete directory and all contents, or remove contents first.").data, ?_⟩
    simp

/-- C8 witness: `/tmp/d` with three immediate entries. -/
theorem C8_witness :
    ∃ msg, deleteDirectory fsEnvDemo fsDemo "/tmp/d" false = (.error msg, fsDemo) ∧
      containsSub msg
        (toString (fsDemo.childNames (resolvePath fsEnvDemo "/tmp/d")).length ++
          " items") = true :=
  C8_nonrecursive_delete_nonempty fsEnvDemo fsDemo "/tmp/d" (by decide) (by decide)
